import Mathlib

/-!
Verification of the planning and lifecycle engine of `scripts/zfs_pbs_backup.py`.

Strings from the Python source are modelled as `List Char` (named `Name` below), so
that `startswith` becomes the list-prefix relation `<+:`, slicing becomes `List.drop`,
and Python's `str.isdigit` / `str.strip` / `int(...)` become executable functions on
character lists. Python's `list(set(xs))` is modelled as `xs.dedup` and `sorted(set(xs))`
as `List.insertionSort (· ≤ ·) xs.dedup` (the sorted list of the distinct elements,
which is what `sorted` returns on the distinct elements of `xs`, ordered by the
lexicographic order on strings). Results of external `zfs` invocations (snapshot
listings and property lookups) are passed in as explicit inputs, since the Python
functions obtain them through the command runner.
-/

/-- Python strings, modelled as lists of characters. -/
abbrev Name := List Char

/-- Python's `"@" in snapshot` for the single-character needle `"@"`. -/
def hasAtSign (t : Name) : Bool := decide ('@' ∈ t)

/-- The whitespace characters stripped by Python's `str.strip()`. -/
def pyIsSpace (c : Char) : Bool :=
  c = ' ' || c = '\t' || c = '\n' || c = '\r' || c = '\x0b' || c = '\x0c'

/-- Python's `str.strip()`: remove leading and trailing whitespace. -/
def pyStrip (t : Name) : Name :=
  ((t.dropWhile pyIsSpace).reverse.dropWhile pyIsSpace).reverse

/-- Python's `str.isdigit()` on ASCII data: nonempty and all characters are digits. -/
def pyIsDigit (t : Name) : Bool := !t.isEmpty && t.all Char.isDigit

/-- Python's `int(...)` on a digit string: the denoted natural number. -/
def pyInt (t : Name) : Nat := t.foldl (fun n c => 10 * n + (c.toNat - '0'.toNat)) 0

/-- Python's `str.lower()` on ASCII data. -/
def pyLower (t : Name) : Name := t.map Char.toLower

/-- Python's `str.startswith(p)`. -/
def pyStartsWith (t p : Name) : Bool := decide (p <+: t)

/-- Split at the first occurrence of `sepc`: returns the parts before and after it,
    or `none` when `sepc` does not occur. -/
def breakAtChar (sepc : Char) : Name → Option (Name × Name)
  | [] => none
  | c :: rest =>
    if c = sepc then some ([], rest)
    else
      match breakAtChar sepc rest with
      | none => none
      | some (a, b) => some (c :: a, b)

/-- Python's `str.split(sep, maxsplit)` for a single-character separator. -/
def pySplitMax (sepc : Char) : Nat → Name → List Name
  | 0, t => [t]
  | Nat.succ n, t =>
    match breakAtChar sepc t with
    | none => [t]
    | some (a, b) => a :: pySplitMax sepc n b

/-- Python's `s.split(sep, 1)` unpacked into the two parts around the first separator.
    Every use site in the source splits a full snapshot name `<dataset>@<snapname>`
    at its `"@"`, so the separator is always present there. -/
def pySplitOnce (sepc : Char) (t : Name) : Name × Name :=
  match breakAtChar sepc t with
  | some p => p
  | none => (t, [])

-- =============================================================================
-- DatasetPlan (Planner output consumed by the orchestrator)
-- =============================================================================

/-- The per-dataset plan entry emitted by `collect_datasets_to_backup`. -/
structure DatasetPlan where
  dataset : Name
  mountpoint : Name
  include_mode : String
  recursive_for_snapshot : Bool
  process_self : Bool
deriving DecidableEq

-- =============================================================================
-- Command runner (`infer_read_only`, `run_cmd`)
-- =============================================================================

/-- The read-only allow-list `READ_ONLY_ZFS_SUB_COMMANDS` from the source. -/
def READ_ONLY_ZFS_SUB_COMMANDS : List (String × String) :=
  [("zfs", "list"), ("zfs", "get"), ("zfs", "holds")]

/-- The source's `infer_read_only(cmd)`: empty commands are read-only; otherwise the
    first two argv entries (padding with `""` for one-element commands) are looked up
    in the allow-list, and any `proxmox-backup-client` invocation whose argv does not
    contain the exact element `"backup"` is read-only; everything else is mutating. -/
def infer_read_only (cmd : List String) : Bool :=
  match cmd with
  | [] => true
  | c0 :: rest =>
    let head : String × String :=
      match rest with
      | [] => (c0, "")
      | c1 :: _ => (c0, c1)
    if head ∈ READ_ONLY_ZFS_SUB_COMMANDS then true
    else if c0 = "proxmox-backup-client" && decide ("backup" ∉ c0 :: rest) then true
    else false

/-- The synthetic `subprocess.CompletedProcess` returned by `run_cmd` in dry-run mode
    for mutating commands. -/
structure SyntheticResult where
  returncode : Int
  stdout : String
  stderr : String
deriving DecidableEq

/-- Whether `run_cmd` short-circuits with a synthetic success or actually invokes
    `subprocess.run`. -/
inductive RunOutcome where
  | syntheticSuccess (result : SyntheticResult)
  | executedSubprocess
deriving DecidableEq

/-- The dry-run gate of the source's `run_cmd`: with `read_only` unset it is inferred
    by `infer_read_only`; in dry-run mode a mutating command returns a synthetic
    success (returncode 0, empty stdout and stderr) without running the subprocess,
    and every other combination reaches `subprocess.run`. -/
def run_command (cmd : List String) (dry_run : Bool) (read_only : Option Bool) : RunOutcome :=
  let ro : Bool :=
    match read_only with
    | none => infer_read_only cmd
    | some b => b
  if dry_run && !ro then .syntheticSuccess ⟨0, "", ""⟩
  else .executedSubprocess

/-- Modelled from the spec: the claim's read-only characterisation — exactly
    `zfs list`, `zfs get`, `zfs holds` (by the first two argv entries), or any
    `proxmox-backup-client` invocation not containing `"backup"`. -/
def claim_read_only (cmd : List String) : Bool :=
  decide (["zfs", "list"] <+: cmd) || decide (["zfs", "get"] <+: cmd) ||
  decide (["zfs", "holds"] <+: cmd) ||
  (decide (cmd.take 1 = ["proxmox-backup-client"]) && decide ("backup" ∉ cmd))

-- =============================================================================
-- ZFS adapter pieces used by the claims
-- =============================================================================

/-- The source's `list_snapshots_for_dataset(dataset, prefix)`: keep the full snapshot
    names of this dataset that start with `f"{dataset}@{prefix}"`. The raw rows of
    `zfs list -t snapshot` are supplied by `listing`. -/
def list_snapshots_for_dataset (dataset : Name) (pfx : Name) (listing : Name → List Name) :
    List Name :=
  let full_pfx : Name := dataset ++ '@' :: pfx
  (listing dataset).filter (fun snapshot => pyStartsWith snapshot full_pfx)

/-- Parse outcome of the source's `zfs_holds`: either the holds map, a `KeyError`
    (an output row names a snapshot missing from the pre-initialised dict), or a
    `ValueError` (a non-blank row does not unpack into three tab-separated fields). -/
inductive HoldsOutcome where
  | ok (holds_by_snapshot : List (Name × List Name))
  | keyError
  | valueError
deriving DecidableEq

/-- `holds_by_snapshot[snapshot].append(tag)` on the association-list model of the
    Python dict. -/
def appendHold (acc : List (Name × List Name)) (snapshot tag : Name) :
    List (Name × List Name) :=
  acc.map (fun p => if p.1 = snapshot then (p.1, p.2 ++ [tag]) else p)

/-- The output-parsing loop of the source's `zfs_holds`: blank lines are skipped; each
    remaining line is split as `<snapshot>\t<tag>\t<timestamp>`; the tag is appended to
    the dict entry of the named snapshot, which raises `KeyError` when that snapshot is
    not a key of the pre-initialised dict. -/
def zfs_holds_loop (acc : List (Name × List Name)) : List Name → HoldsOutcome
  | [] => .ok acc
  | line :: rest =>
    if pyStrip line = [] then zfs_holds_loop acc rest
    else
      match pySplitMax '\t' 2 line with
      | [snapshot, tag, _timestamp] =>
        if snapshot ∈ acc.map Prod.fst then zfs_holds_loop (appendHold acc snapshot tag) rest
        else .keyError
      | _ => .valueError

/-- The source's `zfs_holds` from the parsing side: the dict is pre-initialised with an
    empty list for every (deduplicated) input snapshot, then filled from the output
    lines. -/
def zfs_holds_parse (snapshots : List Name) (lines : List Name) : HoldsOutcome :=
  zfs_holds_loop ((snapshots.dedup).map (fun snapshot => (snapshot, []))) lines

/-- The first tab-separated field of an output row, i.e. the snapshot name the row is
    about. -/
def rowSnapshotField (line : Name) : Name := (pySplitMax '\t' 2 line).headD []

-- =============================================================================
-- Teardown classification (`zfs_release_and_destroy_snapshots`)
-- =============================================================================

/-- One iteration of the classification loop in `zfs_release_and_destroy_snapshots`:
    the accumulator holds (snapshots_to_destroy, skipped snapshots). A name without
    `"@"` is skipped; a snapshot with no holds is destroyed; a snapshot whose hold set
    equals exactly the configured hold name while holding was enabled — or anything
    under force-release — is destroyed; everything else is skipped with a warning. -/
def classifyStep (hold_snapshots : Bool) (hold_name : Name) (force_release : Bool)
    (acc : List Name × List Name) (entry : Name × List Name) : List Name × List Name :=
  if hasAtSign entry.1 = false then (acc.1, acc.2 ++ [entry.1])
  else if entry.2 = [] then (acc.1 ++ [entry.1], acc.2)
  else if (hold_snapshots && decide (entry.2.toFinset = {hold_name})) || force_release then
    (acc.1 ++ [entry.1], acc.2)
  else (acc.1, acc.2 ++ [entry.1])

/-- The full classification pass of `zfs_release_and_destroy_snapshots` over the
    `holds_by_snapshot` items: first component the destroy list (in iteration order,
    before deduplication), second component the skipped snapshots. -/
def zfs_release_and_destroy_classify (items : List (Name × List Name))
    (hold_snapshots : Bool) (hold_name : Name) (force_release : Bool) :
    List Name × List Name :=
  items.foldl (classifyStep hold_snapshots hold_name force_release) ([], [])

/-- The `snapshots_to_destroy` list after the source's `list(set(...))`
    deduplication. -/
def snapshots_to_destroy (items : List (Name × List Name))
    (hold_snapshots : Bool) (hold_name : Name) (force_release : Bool) : List Name :=
  (zfs_release_and_destroy_classify items hold_snapshots hold_name force_release).1.dedup

/-- The snapshots skipped (with a warning) by the classification loop. -/
def snapshots_skipped (items : List (Name × List Name))
    (hold_snapshots : Bool) (hold_name : Name) (force_release : Bool) : List Name :=
  (zfs_release_and_destroy_classify items hold_snapshots hold_name force_release).2

/-- The destroy-eligibility condition of one classification-loop iteration, as a
    predicate on a `(snapshot, holds)` item. -/
def destroyCond (hold_snapshots : Bool) (hold_name : Name) (force_release : Bool)
    (entry : Name × List Name) : Bool :=
  hasAtSign entry.1 &&
    (decide (entry.2 = []) ||
      (hold_snapshots && decide (entry.2.toFinset = {hold_name})) || force_release)

-- =============================================================================
-- PBS adapter pieces (`pbs_build_repository_string`, `pbs_status`)
-- =============================================================================

/-- Python truthiness of an `Optional[str]`: `None` and `""` are falsy. -/
def truthyS (o : Option String) : Bool := o.getD "" ≠ ""

/-- Python truthiness of an `Optional[int]`: `None` and `0` are falsy. -/
def truthyN (o : Option Nat) : Bool := o.getD 0 ≠ 0

/-- The source's `pbs_build_repository_string`: raises `ValueError` without a
    datastore; otherwise concatenates `username[!token]@` when a username is given,
    `server:` when a server is given, `port:` when a port is given (note: the port
    part is emitted independently of the server), and the datastore. -/
def pbs_build_repository_string (username token_name server : Option String)
    (port : Option Nat) (datastore : Option String) : Except String String :=
  if truthyS datastore = false then
    .error "Datastore must be specified for PBS repository string."
  else
    let repo_parts : List String :=
      (if truthyS username then
        (if truthyS token_name then [username.getD "" ++ "!" ++ token_name.getD "" ++ "@"]
         else [username.getD "" ++ "@"])
       else [])
      ++ (if truthyS server then [server.getD "" ++ ":"] else [])
      ++ (if truthyN port then [toString (port.getD 0) ++ ":"] else [])
      ++ [datastore.getD ""]
    .ok (String.join repo_parts)

/-- Modelled from the spec: the documented repository-string grammar
    `[username[!token]@][server[:port]:]datastore` (also the function's own
    docstring), in which a port component can only appear together with a server. -/
def spec_repository_format (username token_name server : Option String)
    (port : Option Nat) (datastore : String) : String :=
  (if truthyS username then
    username.getD "" ++ (if truthyS token_name then "!" ++ token_name.getD "" else "") ++ "@"
   else "")
  ++ (if truthyS server then
        server.getD "" ++ (if truthyN port then ":" ++ toString (port.getD 0) else "") ++ ":"
      else "")
  ++ datastore

/-- Control-flow outcome of the source's `pbs_status` after the status probe ran. -/
inductive PbsStatusOutcome where
  | success
  | exitWithDiagnostic (error_message : Name)
  | attributeErrorNone
deriving DecidableEq

/-- The result classification of the source's `pbs_status`: on returncode 0 the probe
    succeeded; on nonzero returncode `error_message` is the stripped stderr when stderr
    is non-empty and `None` otherwise, and the very next step calls
    `error_message.lower()` — which raises `AttributeError` when it is `None`, and
    otherwise logs a diagnostic and exits with code 1. -/
def pbs_status_classify (returncode : Int) (stderr : Name) : PbsStatusOutcome :=
  if returncode = 0 then .success
  else
    let error_message : Option Name := if stderr ≠ [] then some (pyStrip stderr) else none
    match error_message with
    | none => .attributeErrorNone
    | some m => .exitWithDiagnostic m

-- =============================================================================
-- Orphan discovery and resume (`find_orphan_snapshots`, `find_resume_timestamp`)
-- =============================================================================

/-- The per-snapshot body of the source's `find_orphan_snapshots` loop: split the full
    snapshot name at its `"@"`, take the stripped timestamp property; when it is not a
    digit string fall back to the digit suffix of the snapshot name after the
    configured name beginning (or `""` when that fails); flag the snapshot as
    `(snapname, dataset)` when the resulting timestamp differs from the current run's
    timestamp. -/
def orphanFlag (pfx current : Name) (props : Name → Name) (snapshot : Name) :
    Option (Name × Name) :=
  let dataset := (pySplitOnce '@' snapshot).1
  let snapshot_name := (pySplitOnce '@' snapshot).2
  let timestamp := pyStrip (props snapshot)
  let timestamp :=
    if pyIsDigit timestamp = false then
      (if pyStartsWith snapshot_name pfx then
        (let suffix := snapshot_name.drop pfx.length
         if pyIsDigit suffix then suffix else [])
       else timestamp)
    else timestamp
  if timestamp ≠ current then some (snapshot_name, dataset) else none

/-- The source's `find_orphan_snapshots`, as the ordered list of flagged
    `(snapname, dataset)` pairs (the Python groups these pairs into a dict keyed by
    snapname; flagging is pair membership). `listing` supplies the raw
    `zfs list -t snapshot` rows and `props` the raw timestamp-property values. -/
def find_orphan_snapshots (dataset_plans : List DatasetPlan) (pfx current : Name)
    (props : Name → Name) (listing : Name → List Name) : List (Name × Name) :=
  dataset_plans.flatMap (fun dataset_plan =>
    (list_snapshots_for_dataset dataset_plan.dataset pfx listing).filterMap
      (orphanFlag pfx current props))

/-- Modelled from the spec: the effective timestamp of a snapshot — the stripped
    timestamp property when it is a decimal string, otherwise the decimal suffix of
    the snapshot name after the configured name beginning, otherwise none. -/
def effectiveTimestampSpec (pfx : Name) (props : Name → Name) (snapshot snapshot_name : Name) :
    Option Name :=
  let t := pyStrip (props snapshot)
  if pyIsDigit t then some t
  else
    let suffix := snapshot_name.drop pfx.length
    if pyIsDigit suffix then some suffix else none

/-- The `timestamp_newest` update of `find_resume_timestamp`: replace the running
    maximum when there is none yet or the candidate's integer value is larger. -/
def updIfNewer (timestamp_newest : Option Name) (candidate : Name) : Option Name :=
  match timestamp_newest with
  | none => some candidate
  | some t => if pyInt candidate > pyInt t then some candidate else timestamp_newest

/-- The per-snapshot body of the source's `find_resume_timestamp` loop: a digit
    timestamp property is a candidate; otherwise the digit suffix of a
    matching-beginning snapshot name is; the running maximum is updated
    accordingly. -/
def resumeStep (pfx : Name) (props : Name → Name) (timestamp_newest : Option Name)
    (snapshot : Name) : Option Name :=
  let snapshot_name := (pySplitOnce '@' snapshot).2
  let timestamp := pyStrip (props snapshot)
  if pyIsDigit timestamp then updIfNewer timestamp_newest timestamp
  else
    if pyStartsWith snapshot_name pfx then
      (let suffix := snapshot_name.drop pfx.length
       if pyIsDigit suffix then updIfNewer timestamp_newest suffix else timestamp_newest)
    else timestamp_newest

/-- The source's `find_resume_timestamp`: fold the update over every plan's
    matching-beginning snapshots, starting from `None`. -/
def find_resume_timestamp (dataset_plans : List DatasetPlan) (pfx : Name)
    (props : Name → Name) (listing : Name → List Name) : Option Name :=
  dataset_plans.foldl (fun timestamp_newest dataset_plan =>
    (list_snapshots_for_dataset dataset_plan.dataset pfx listing).foldl
      (resumeStep pfx props) timestamp_newest) none

/-- The candidate timestamp a single snapshot contributes in `find_resume_timestamp`
    (the digit property, else the digit name suffix, else nothing). -/
def resumeCandidate (pfx : Name) (props : Name → Name) (snapshot : Name) : Option Name :=
  let snapshot_name := (pySplitOnce '@' snapshot).2
  let timestamp := pyStrip (props snapshot)
  if pyIsDigit timestamp then some timestamp
  else
    if pyStartsWith snapshot_name pfx then
      (let suffix := snapshot_name.drop pfx.length
       if pyIsDigit suffix then some suffix else none)
    else none

/-- All candidate timestamps of a run, across all plans and all of their
    matching-beginning snapshots, in iteration order. -/
def resumeCandidates (dataset_plans : List DatasetPlan) (pfx : Name)
    (props : Name → Name) (listing : Name → List Name) : List Name :=
  dataset_plans.flatMap (fun dataset_plan =>
    (list_snapshots_for_dataset dataset_plan.dataset pfx listing).filterMap
      (resumeCandidate pfx props))

-- =============================================================================
-- Orphan cleanup policy (`cleanup_orphans_if_any`)
-- =============================================================================

/-- Control-flow outcome of the source's `cleanup_orphans_if_any`. -/
inductive CleanupOutcome where
  | returnedNoOrphans
  | returnedKeepFalse
  | returnedAskDeclined
  | invalidValueExit1
  | removedOrphans
deriving DecidableEq

/-- The source's `cleanup_orphans_if_any` control flow: return silently when no orphan
    was found; return after a warning under policy `"false"`; under `"ask"` return
    when the stripped, lowercased answer is not `"y"`; exit fatally (code 1) when the
    policy is not one of the five known values; otherwise release and destroy the
    orphans. `ask_answer` supplies the interactive `input(...)` reply. -/
def cleanup_orphans_if_any (dataset_plans : List DatasetPlan) (pfx current : Name)
    (props : Name → Name) (listing : Name → List Name)
    (remove_orphans : String) (ask_answer : Name) : CleanupOutcome :=
  let orphan_datasets_by_snapshot_name :=
    find_orphan_snapshots dataset_plans pfx current props listing
  if orphan_datasets_by_snapshot_name = [] then .returnedNoOrphans
  else if remove_orphans = "false" then .returnedKeepFalse
  else if remove_orphans = "ask" && decide (pyLower (pyStrip ask_answer) ≠ ['y']) then
    .returnedAskDeclined
  else if remove_orphans ∉ ["true", "ask", "only", "force-release"] then .invalidValueExit1
  else .removedOrphans

-- =============================================================================
-- Snapshot orchestration (`_minimize_recursive_roots`, `create_and_hold_snapshots`)
-- =============================================================================

/-- One iteration of the minimization loop: drop the dataset when an already-kept
    element is a `"/"`-ancestor of it. -/
def minStep (minimized : List Name) (dataset : Name) : List Name :=
  if minimized.any (fun parent => pyStartsWith dataset (parent ++ ['/'])) then minimized
  else minimized ++ [dataset]

/-- The source's `_minimize_recursive_roots`: sort the distinct datasets and keep only
    those that are not under a `"/"`-ancestor kept earlier. -/
def _minimize_recursive_roots (recursive_datasets : List Name) : List Name :=
  (List.insertionSort (· ≤ ·) recursive_datasets.dedup).foldl minStep []

/-- Coverage by a recursive root, as in the source's `covered_by_recursive`:
    equal to the root or strictly below it. -/
def covers (r d : Name) : Prop := d = r ∨ (r ++ ['/']) <+: d

instance (r d : Name) : Decidable (covers r d) := by
  unfold covers; infer_instance

/-- The minimized recursive roots of `create_and_hold_snapshots` step 1. -/
def recursiveRoots (dataset_plans : List DatasetPlan) : List Name :=
  _minimize_recursive_roots
    ((dataset_plans.filter (·.recursive_for_snapshot)).map (·.dataset))

/-- The source's `covered_by_recursive` closure over the minimized roots. -/
def covered_by_recursive (roots : List Name) (dataset : Name) : Bool :=
  roots.any (fun recursive_root =>
    pyStartsWith dataset (recursive_root ++ ['/']) || decide (dataset = recursive_root))

/-- The `non_recursive_targets` of `create_and_hold_snapshots` steps 3–4: datasets of
    non-recursive plans that are not covered by any minimized recursive root. -/
def non_recursive_targets (dataset_plans : List DatasetPlan) : List Name :=
  ((dataset_plans.filter (fun p => !p.recursive_for_snapshot)).map (·.dataset)).filter
    (fun dataset => !covered_by_recursive (recursiveRoots dataset_plans) dataset)

/-- The argument list of the single non-recursive `zfs snapshot` invocation:
    `zfs_create_snapshots` deduplicates its dataset list (`list(set(datasets))`)
    before building the snapshot arguments. -/
def nonRecursiveSnapshotArgs (dataset_plans : List DatasetPlan) : List Name :=
  (non_recursive_targets dataset_plans).dedup

-- =============================================================================
-- Helper lemmas
-- =============================================================================

theorem infer_read_only_eq_claim (cmd : List String) (hne : cmd ≠ []) :
    infer_read_only cmd = claim_read_only cmd := by
  match cmd with
  | [] => exact absurd rfl hne
  | [c0] =>
    by_cases hc : c0 = "proxmox-backup-client" <;>
      simp [infer_read_only, claim_read_only, READ_ONLY_ZFS_SUB_COMMANDS, hc]
  | c0 :: c1 :: rest =>
    by_cases hc : c0 = "proxmox-backup-client" <;>
      by_cases hb : "backup" ∈ c0 :: c1 :: rest <;>
        by_cases hz : c0 = "zfs" <;>
          by_cases h1 : c1 = "list" <;>
            by_cases h2 : c1 = "get" <;>
              by_cases h3 : c1 = "holds" <;>
                simp_all [infer_read_only, claim_read_only, READ_ONLY_ZFS_SUB_COMMANDS] <;>
                  aesop

-- =============================================================================
-- C3: dry-run policy of the command runner
-- =============================================================================

/-- C3 (counterexample): the claim quantifies over every command argv, but at the
    empty argv it fails — the empty command is none of the claim's read-only shapes,
    so the claim demands a synthetic success in dry-run mode, yet `run_cmd` infers the
    empty command as read-only and invokes the subprocess. -/
theorem run_command_dry_run_empty_argv :
    claim_read_only [] = false ∧ run_command [] true none = .executedSubprocess := by
  constructor <;> rfl

/-- C3 (amended): for every NONEMPTY command argv, when dry_run is true and the
    command is not read-only (read-only being exactly: `zfs list`, `zfs get`,
    `zfs holds`, or any `proxmox-backup-client` invocation not containing `"backup"`),
    `run_cmd` returns a synthetic success (returncode 0, empty stdout and stderr)
    without invoking the subprocess; when the command is read-only it executes even in
    dry-run mode. -/
theorem run_command_dry_run_policy (cmd : List String) (hne : cmd ≠ []) :
    (claim_read_only cmd = false →
        run_command cmd true none = .syntheticSuccess ⟨0, "", ""⟩) ∧
    (claim_read_only cmd = true →
        ∀ dry_run : Bool, run_command cmd dry_run none = .executedSubprocess) := by
  constructor
  · intro h
    simp [run_command, infer_read_only_eq_claim cmd hne, h]
  · intro h dry_run
    simp [run_command, infer_read_only_eq_claim cmd hne, h]

/-- C3 (witness): a mutating `zfs destroy` is stubbed in dry-run mode while a
    read-only `zfs list` executes. -/
theorem run_command_dry_run_policy_witness :
    run_command ["zfs", "destroy", "tank@snap"] true none = .syntheticSuccess ⟨0, "", ""⟩ ∧
    run_command ["zfs", "list"] true none = .executedSubprocess :=
  ⟨(run_command_dry_run_policy ["zfs", "destroy", "tank@snap"] (by decide)).1 (by decide),
   (run_command_dry_run_policy ["zfs", "list"] (by decide)).2 (by decide) true⟩

-- =============================================================================
-- C7: repository-string construction
-- =============================================================================

/-- C7 (code bug): at the input username=None, token=None, server=None, port=8007,
    datastore="store" the function returns "8007:store" — a port component without a
    server, which the documented format `[username[!token]@][server[:port]:]datastore`
    (the claim, the spec and the function's own docstring) does not allow: rendering
    that format at the same input yields "store". -/
theorem pbs_build_repository_string_port_without_server :
    pbs_build_repository_string none none none (some 8007) (some "store") =
      Except.ok "8007:store" ∧
    spec_repository_format none none none (some 8007) "store" = "store" := by
  constructor <;> rfl

-- =============================================================================
-- C10: pbs_status on nonzero exit with empty stderr
-- =============================================================================

/-- C10: for every status-probe outcome where the client exits nonzero with empty
    stderr, `pbs_status` assigns `error_message = None` and the following `.lower()`
    call raises `AttributeError`; the documented log-diagnostic-and-exit-1 behaviour
    occurs only when stderr is non-empty. -/
theorem pbs_status_attribute_error_on_empty_stderr (returncode : Int)
    (hrc : returncode ≠ 0) :
    pbs_status_classify returncode [] = .attributeErrorNone ∧
    (∀ stderr m : Name,
        pbs_status_classify returncode stderr = .exitWithDiagnostic m → stderr ≠ []) := by
  constructor
  · simp [pbs_status_classify, hrc]
  · intro stderr m h hemp
    subst hemp
    simp [pbs_status_classify, hrc] at h

/-- C10 (witness): the AttributeError path at returncode 255 with empty stderr. -/
theorem pbs_status_attribute_error_witness :
    pbs_status_classify 255 [] = .attributeErrorNone :=
  (pbs_status_attribute_error_on_empty_stderr 255 (by decide)).1

-- =============================================================================
-- C2: teardown destroy/skip classification
-- =============================================================================

theorem destroyCond_eq_true_iff (hs : Bool) (hn : Name) (fr : Bool) (e : Name × List Name) :
    destroyCond hs hn fr e = true ↔
      hasAtSign e.1 = true ∧
        (e.2 = [] ∨ (hs = true ∧ e.2.toFinset = {hn}) ∨ fr = true) := by
  by_cases h : hasAtSign e.1 <;> simp [destroyCond, h, or_assoc]

theorem classifyStep_eq (hs : Bool) (hn : Name) (fr : Bool)
    (acc : List Name × List Name) (e : Name × List Name) :
    classifyStep hs hn fr acc e =
      if destroyCond hs hn fr e then (acc.1 ++ [e.1], acc.2)
      else (acc.1, acc.2 ++ [e.1]) := by
  by_cases h1 : hasAtSign e.1 = false <;>
    by_cases h2 : e.2 = [] <;>
      by_cases h3 : ((hs && decide (e.2.toFinset = {hn})) || fr) = true <;>
        simp [classifyStep, destroyCond, h1, h2, h3]

theorem classify_foldl (hs : Bool) (hn : Name) (fr : Bool) :
    ∀ (items : List (Name × List Name)) (acc : List Name × List Name),
      items.foldl (classifyStep hs hn fr) acc =
        (acc.1 ++ (items.filter (destroyCond hs hn fr)).map Prod.fst,
         acc.2 ++ (items.filter (fun e => !destroyCond hs hn fr e)).map Prod.fst) := by
  intro items
  induction items with
  | nil => intro acc; simp
  | cons e rest ih =>
    intro acc
    rw [List.foldl_cons, classifyStep_eq]
    by_cases h : destroyCond hs hn fr e = true
    · rw [if_pos h, ih]
      simp [List.filter_cons, h, List.append_assoc]
    · rw [if_neg h, ih]
      rw [Bool.not_eq_true] at h
      simp [List.filter_cons, h, List.append_assoc]

theorem nodup_keys_mem_eq {items : List (Name × List Name)}
    (hnd : (items.map Prod.fst).Nodup) {s : Name} {h1 h2 : List Name}
    (m1 : (s, h1) ∈ items) (m2 : (s, h2) ∈ items) : h1 = h2 := by
  induction items with
  | nil => cases m1
  | cons e rest ih =>
    simp only [List.map_cons, List.nodup_cons] at hnd
    rcases List.mem_cons.mp m1 with he1 | ht1 <;> rcases List.mem_cons.mp m2 with he2 | ht2
    · exact (Prod.ext_iff.mp (he1.trans he2.symm)).2
    · exact absurd (List.mem_map.mpr ⟨(s, h2), ht2, by simpa using congrArg Prod.fst he1⟩) hnd.1
    · exact absurd (List.mem_map.mpr ⟨(s, h1), ht1, by simpa using congrArg Prod.fst he2⟩) hnd.1
    · exact ih hnd.2 ht1 ht2

/-- C2: for every holds map in teardown scope, a snapshot enters the destroy set of
    `zfs_release_and_destroy_snapshots` if and only if it has no holds, or its hold
    set equals exactly the configured hold name while holding was enabled this run, or
    force-release is set; in every other case it is skipped (with a warning). In
    particular no snapshot carrying a hold tag different from the configured hold name
    is destroyed unless force-release is set. -/
theorem teardown_destroy_safety (items : List (Name × List Name))
    (hold_snapshots force_release : Bool) (hold_name : Name)
    (hkeys : (items.map Prod.fst).Nodup)
    (snapshot : Name) (holds : List Name) (hmem : (snapshot, holds) ∈ items)
    (hat : hasAtSign snapshot = true) :
    (snapshot ∈ snapshots_to_destroy items hold_snapshots hold_name force_release ↔
      (holds = [] ∨ (hold_snapshots = true ∧ holds.toFinset = {hold_name}) ∨
        force_release = true)) ∧
    (¬(holds = [] ∨ (hold_snapshots = true ∧ holds.toFinset = {hold_name}) ∨
        force_release = true) →
      snapshot ∈ snapshots_skipped items hold_snapshots hold_name force_release) := by
  have hcl := classify_foldl hold_snapshots hold_name force_release items ([], [])
  constructor
  · rw [snapshots_to_destroy, zfs_release_and_destroy_classify, hcl]
    simp only [List.nil_append, List.mem_dedup, List.mem_map, List.mem_filter]
    constructor
    · rintro ⟨e, ⟨hein, hcond⟩, hfst⟩
      obtain ⟨c1, c2⟩ := (destroyCond_eq_true_iff _ _ _ _).mp hcond
      have : e = (snapshot, e.2) := by
        rw [← hfst]
      rw [this] at hein
      have := nodup_keys_mem_eq hkeys hein hmem
      rwa [this] at c2
    · intro hdis
      refine ⟨(snapshot, holds), ⟨hmem, ?_⟩, rfl⟩
      exact (destroyCond_eq_true_iff _ _ _ _).mpr ⟨hat, hdis⟩
  · intro hdis
    rw [snapshots_skipped, zfs_release_and_destroy_classify, hcl]
    simp only [List.nil_append, List.mem_map, List.mem_filter]
    refine ⟨(snapshot, holds), ⟨hmem, ?_⟩, rfl⟩
    simp only [Bool.not_eq_true']
    rw [← Bool.not_eq_true]
    intro hc
    exact hdis ((destroyCond_eq_true_iff _ _ _ _).mp hc).2

/-- C2 (witness): an orphan holding both our hold and a foreign `pve-autosnap` hold is
    not destroyed under the default (non-force) policy and lands in the skipped
    list. -/
theorem teardown_destroy_safety_witness :
    ("tank/c@zfs-pbs-backup_1699000000".data ∉
        snapshots_to_destroy
          [("tank/c@zfs-pbs-backup_1699000000".data,
            ["zfs-pbs-backup".data, "pve-autosnap".data])]
          true "zfs-pbs-backup".data false) ∧
    ("tank/c@zfs-pbs-backup_1699000000".data ∈
        snapshots_skipped
          [("tank/c@zfs-pbs-backup_1699000000".data,
            ["zfs-pbs-backup".data, "pve-autosnap".data])]
          true "zfs-pbs-backup".data false) := by
  have h := teardown_destroy_safety
    [("tank/c@zfs-pbs-backup_1699000000".data,
      ["zfs-pbs-backup".data, "pve-autosnap".data])]
    true false "zfs-pbs-backup".data (by decide)
    "tank/c@zfs-pbs-backup_1699000000".data
    ["zfs-pbs-backup".data, "pve-autosnap".data] (by decide) (by decide)
  exact ⟨fun hm => (by decide :
      ¬(["zfs-pbs-backup".data, "pve-autosnap".data] = ([] : List Name) ∨
        (true = true ∧
          (["zfs-pbs-backup".data, "pve-autosnap".data] : List Name).toFinset =
            {"zfs-pbs-backup".data}) ∨ false = true)) (h.1.mp hm),
    h.2 (by decide)⟩

-- =============================================================================
-- C9: zfs_holds KeyError on unrequested rows
-- =============================================================================

theorem appendHold_keys (acc : List (Name × List Name)) (snapshot tag : Name) :
    (appendHold acc snapshot tag).map Prod.fst = acc.map Prod.fst := by
  induction acc with
  | nil => rfl
  | cons e rest ih =>
    by_cases h : e.1 = snapshot <;> simp [appendHold, h] <;>
      simpa [appendHold] using ih

theorem zfs_holds_loop_classify (ks : List Name) :
    ∀ (lines : List Name) (acc : List (Name × List Name)), acc.map Prod.fst = ks →
      (∀ line ∈ lines, pyStrip line ≠ [] → (pySplitMax '\t' 2 line).length = 3) →
      ((zfs_holds_loop acc lines = .keyError ↔
          ∃ line ∈ lines, pyStrip line ≠ [] ∧ rowSnapshotField line ∉ ks) ∧
        zfs_holds_loop acc lines ≠ .valueError) := by
  intro lines
  induction lines with
  | nil =>
    intro acc hacc h3
    simp [zfs_holds_loop]
  | cons line rest ih =>
    intro acc hacc h3
    by_cases hb : pyStrip line = []
    · have hrec := ih acc hacc (fun l hl => h3 l (List.mem_cons_of_mem _ hl))
      rw [show zfs_holds_loop acc (line :: rest) = zfs_holds_loop acc rest by
        simp [zfs_holds_loop, hb]]
      rw [hrec.1]
      refine ⟨?_, hrec.2⟩
      simp [hb]
    · obtain ⟨s, tg, ts, hsplit⟩ :
        ∃ a b c, pySplitMax '\t' 2 line = [a, b, c] := by
        have := h3 line (List.mem_cons_self _ _) hb
        exact List.length_eq_three.mp this
      have hfield : rowSnapshotField line = s := by
        simp [rowSnapshotField, hsplit]
      by_cases hin : s ∈ acc.map Prod.fst
      · have hloop : zfs_holds_loop acc (line :: rest) =
            zfs_holds_loop (appendHold acc s tg) rest := by
          simp [zfs_holds_loop, hb, hsplit, hin]
        have hrec := ih (appendHold acc s tg) ((appendHold_keys acc s tg).trans hacc)
          (fun l hl => h3 l (List.mem_cons_of_mem _ hl))
        rw [hloop, hrec.1]
        refine ⟨?_, hrec.2⟩
        have hsk : s ∈ ks := hacc ▸ hin
        simp only [List.mem_cons]
        constructor
        · rintro ⟨l, hl, hnb, hnot⟩
          exact ⟨l, Or.inr hl, hnb, hnot⟩
        · rintro ⟨l, hl | hl, hnb, hnot⟩
          · exact absurd hsk (by rw [hl] at hnot; rwa [hfield] at hnot)
          · exact ⟨l, hl, hnb, hnot⟩
      · have hloop : zfs_holds_loop acc (line :: rest) = .keyError := by
          simp [zfs_holds_loop, hb, hsplit, hin]
        rw [hloop]
        refine ⟨⟨fun _ => ⟨line, List.mem_cons_self _ _, hb, ?_⟩, fun _ => rfl⟩, by simp⟩
        rw [hfield, ← hacc]
        exact hin

/-- C9: `zfs_holds` pre-initialises its result map only for the requested snapshots;
    for every output (of well-formed three-field rows) containing a row whose snapshot
    name is not among the requested snapshots — as happens with `recursive=True` when
    a descendant snapshot carries a hold — the parse raises `KeyError` instead of
    returning a holds map, and it returns a holds map exactly when every row names a
    requested snapshot. -/
theorem zfs_holds_unrequested_row_keyerror (snapshots lines : List Name)
    (h3 : ∀ line ∈ lines, pyStrip line ≠ [] → (pySplitMax '\t' 2 line).length = 3) :
    (zfs_holds_parse snapshots lines = .keyError ↔
      ∃ line ∈ lines, pyStrip line ≠ [] ∧ rowSnapshotField line ∉ snapshots) ∧
    zfs_holds_parse snapshots lines ≠ .valueError := by
  have hkeys : ((snapshots.dedup).map (fun snapshot => (snapshot, ([] : List Name)))).map
      Prod.fst = snapshots.dedup := by
    induction snapshots.dedup with
    | nil => rfl
    | cons a t ih => simp only [List.map_cons]; rw [ih]
  have h := zfs_holds_loop_classify snapshots.dedup lines _ hkeys h3
  rw [zfs_holds_parse]
  rw [h.1]
  exact ⟨by simp [List.mem_dedup], h.2⟩

/-- C9 (witness): requesting holds for `tank@snap` recursively while a descendant row
    `tank/child@snap` comes back makes the parse raise `KeyError`. -/
theorem zfs_holds_unrequested_row_keyerror_witness :
    zfs_holds_parse ["tank@snap".data] ["tank/child@snap\tkeep\t123".data] =
      .keyError :=
  (zfs_holds_unrequested_row_keyerror ["tank@snap".data]
      ["tank/child@snap\tkeep\t123".data] (by decide)).1.mpr
    ⟨"tank/child@snap\tkeep\t123".data, by decide, by decide, by decide⟩

-- =============================================================================
-- C8: invalid remove-orphans policy
-- =============================================================================

/-- C8 (counterexample): the claim requires exit code 1 for an invalid policy value
    also when no orphaned snapshots exist, but with no snapshots at all (hence no
    orphans) and the invalid policy value "yes" the function returns silently before
    ever validating the policy. -/
theorem cleanup_invalid_policy_counterexample :
    ("yes" : String) ∉ ["true", "false", "ask", "only", "force-release"] ∧
    cleanup_orphans_if_any [] [] [] (fun _ => []) (fun _ => []) "yes" [] =
      .returnedNoOrphans ∧
    CleanupOutcome.returnedNoOrphans ≠ .invalidValueExit1 := by
  exact ⟨by decide, rfl, by decide⟩

/-- C8 (amended): for every policy value that is not one of "true", "false", "ask",
    "only", "force-release", orphan cleanup terminates with exit code 1 — provided at
    least one orphaned snapshot was found; with no orphans it returns without
    validating the policy. -/
theorem cleanup_invalid_policy_exit (dataset_plans : List DatasetPlan)
    (pfx current : Name) (props : Name → Name) (listing : Name → List Name)
    (remove_orphans : String) (ask_answer : Name)
    (hinvalid : remove_orphans ∉ ["true", "false", "ask", "only", "force-release"])
    (horphans : find_orphan_snapshots dataset_plans pfx current props listing ≠ []) :
    cleanup_orphans_if_any dataset_plans pfx current props listing remove_orphans
      ask_answer = .invalidValueExit1 := by
  have h1 : remove_orphans ≠ "false" := fun h => hinvalid (by simp [h])
  have h2 : remove_orphans ≠ "ask" := fun h => hinvalid (by simp [h])
  have h4 : remove_orphans ∉ ["true", "ask", "only", "force-release"] := by
    intro h
    apply hinvalid
    simp only [List.mem_cons, List.mem_singleton] at h ⊢
    tauto
  simp [cleanup_orphans_if_any, horphans, h1, h2, h4]

/-- C8 (witness): an orphaned snapshot exists and the invalid policy value "yes"
    makes cleanup exit fatally. -/
theorem cleanup_invalid_policy_exit_witness :
    cleanup_orphans_if_any
      [⟨"tank/c".data, "/mnt/c".data, "true", false, true⟩]
      "zfs-pbs-backup_".data "1700000000".data (fun _ => [])
      (fun d => if d = "tank/c".data then ["tank/c@zfs-pbs-backup_1699000000".data] else [])
      "yes" [] = .invalidValueExit1 :=
  cleanup_invalid_policy_exit
    [⟨"tank/c".data, "/mnt/c".data, "true", false, true⟩]
    "zfs-pbs-backup_".data "1700000000".data (fun _ => [])
    (fun d => if d = "tank/c".data then ["tank/c@zfs-pbs-backup_1699000000".data] else [])
    "yes" [] (by decide) (by decide)

-- =============================================================================
-- C4: orphan classification
-- =============================================================================

theorem breakAtChar_append (sepc : Char) (d sn : Name) (h : sepc ∉ d) :
    breakAtChar sepc (d ++ sepc :: sn) = some (d, sn) := by
  induction d with
  | nil => simp [breakAtChar]
  | cons c rest ih =>
    simp only [List.mem_cons, not_or] at h
    have hcs : ¬c = sepc := fun hh => h.1 hh.symm
    simp [breakAtChar, hcs, ih h.2]

theorem pySplitOnce_append (sepc : Char) (d sn : Name) (h : sepc ∉ d) :
    pySplitOnce sepc (d ++ sepc :: sn) = (d, sn) := by
  simp [pySplitOnce, breakAtChar_append sepc d sn h]

theorem full_pfx_iff (d pfx sn : Name) :
    (d ++ '@' :: pfx) <+: (d ++ '@' :: sn) ↔ pfx <+: sn := by
  constructor
  · rintro ⟨t, ht⟩
    rw [List.append_assoc] at ht
    have ht2 := List.append_cancel_left ht
    refine ⟨t, ?_⟩
    simpa using ht2
  · rintro ⟨t, ht⟩
    refine ⟨t, ?_⟩
    rw [List.append_assoc]
    simp [ht]

theorem pyIsDigit_ne_nil {t : Name} (h : pyIsDigit t = true) : t ≠ [] := by
  intro hnil
  subst hnil
  simp [pyIsDigit] at h

theorem orphanFlag_char (pfx current : Name) (props : Name → Name) (d sn : Name)
    (hd : '@' ∉ d) (hcur : current ≠ []) (hpfx : pfx <+: sn) :
    (orphanFlag pfx current props (d ++ '@' :: sn) = some (sn, d) ↔
      effectiveTimestampSpec pfx props (d ++ '@' :: sn) sn ≠ some current) ∧
    (∀ p : Name × Name, orphanFlag pfx current props (d ++ '@' :: sn) = some p →
      p = (sn, d)) := by
  have hsplit := pySplitOnce_append '@' d sn hd
  have hsw : pyStartsWith sn pfx = true := by simpa [pyStartsWith] using hpfx
  by_cases h1 : pyIsDigit (pyStrip (props (d ++ '@' :: sn))) <;>
    by_cases h2 : pyIsDigit (sn.drop pfx.length)
  · constructor
    · by_cases h3 : pyStrip (props (d ++ '@' :: sn)) = current <;>
        simp [orphanFlag, effectiveTimestampSpec, hsplit, h1, h2, h3, hsw] <;>
          exact fun _ => hcur
    · intro p hp
      by_cases h3 : pyStrip (props (d ++ '@' :: sn)) = current <;>
        simp [orphanFlag, hsplit, h1, h3] at hp <;> simp [hp.symm]
  · constructor
    · by_cases h3 : pyStrip (props (d ++ '@' :: sn)) = current <;>
        simp [orphanFlag, effectiveTimestampSpec, hsplit, h1, h2, h3, hsw] <;>
          exact fun _ => hcur
    · intro p hp
      by_cases h3 : pyStrip (props (d ++ '@' :: sn)) = current <;>
        simp [orphanFlag, hsplit, h1, h3] at hp <;> simp [hp.symm]
  · constructor
    · by_cases h3 : sn.drop pfx.length = current <;>
        simp [orphanFlag, effectiveTimestampSpec, hsplit, h1, h2, h3, hsw] <;>
          exact fun _ => hcur
    · intro p hp
      by_cases h3 : sn.drop pfx.length = current <;>
        simp [orphanFlag, hsplit, h1, h2, h3, hsw] at hp <;> simp [hp.symm]
  · constructor
    · simp [orphanFlag, effectiveTimestampSpec, hsplit, h1, h2, hsw, Ne.symm hcur]
    · intro p hp
      simp [orphanFlag, hsplit, h1, h2, hsw, Ne.symm hcur] at hp
      simp [hp.symm]

/-- C4: for every plan list, configured name beginning and current timestamp (a
    nonempty string), `find_orphan_snapshots` flags a snapshot of a planned dataset if
    and only if its snapshot name starts with the configured beginning and its
    effective timestamp differs from the current timestamp — where the effective
    timestamp is the (stripped) timestamp property when that is a decimal string,
    otherwise the decimal name suffix when that is decimal, otherwise no timestamp at
    all, in which case the snapshot is still flagged. -/
theorem find_orphan_flags_iff (dataset_plans : List DatasetPlan) (pfx current : Name)
    (props : Name → Name) (listing : Name → List Name) (hcur : current ≠ [])
    (hwf : ∀ plan ∈ dataset_plans, '@' ∉ plan.dataset ∧
      ∀ s ∈ listing plan.dataset, ∃ sn : Name, s = plan.dataset ++ '@' :: sn)
    (d sn : Name) :
    (sn, d) ∈ find_orphan_snapshots dataset_plans pfx current props listing ↔
      ∃ plan ∈ dataset_plans, plan.dataset = d ∧ (d ++ '@' :: sn) ∈ listing d ∧
        pfx <+: sn ∧
        effectiveTimestampSpec pfx props (d ++ '@' :: sn) sn ≠ some current := by
  rw [find_orphan_snapshots, List.mem_flatMap]
  constructor
  · rintro ⟨plan, hplan, hmem⟩
    rw [List.mem_filterMap] at hmem
    obtain ⟨s, hs, hflag⟩ := hmem
    rw [list_snapshots_for_dataset, List.mem_filter] at hs
    obtain ⟨hlist, hpref⟩ := hs
    obtain ⟨hat, hshape⟩ := hwf plan hplan
    obtain ⟨sn', rfl⟩ := hshape s hlist
    have hpfx : pfx <+: sn' := by
      rw [pyStartsWith, decide_eq_true_eq, full_pfx_iff] at hpref
      exact hpref
    have hchar := orphanFlag_char pfx current props plan.dataset sn' hat hcur hpfx
    have hpair := hchar.2 _ hflag
    obtain ⟨hsn, hd⟩ := Prod.ext_iff.mp hpair
    simp only at hsn hd
    subst hsn
    subst hd
    exact ⟨plan, hplan, rfl, hlist, hpfx, hchar.1.mp hflag⟩
  · rintro ⟨plan, hplan, hpd, hlist, hpfx, heff⟩
    refine ⟨plan, hplan, ?_⟩
    rw [List.mem_filterMap]
    obtain ⟨hat, _⟩ := hwf plan hplan
    subst hpd
    refine ⟨plan.dataset ++ '@' :: sn, ?_, ?_⟩
    · rw [list_snapshots_for_dataset, List.mem_filter]
      exact ⟨hlist, by rw [pyStartsWith, decide_eq_true_eq, full_pfx_iff]; exact hpfx⟩
    · exact (orphanFlag_char pfx current props plan.dataset sn hat hcur hpfx).1.mpr heff

/-- C4 (witness): a prior-run snapshot with decimal name suffix 1699000000 and no
    stored property is flagged against the current timestamp 1700000000. -/
theorem find_orphan_flags_iff_witness :
    ("zfs-pbs-backup_1699000000".data, "tank/c".data) ∈
      find_orphan_snapshots [⟨"tank/c".data, "/mnt/c".data, "true", false, true⟩]
        "zfs-pbs-backup_".data "1700000000".data (fun _ => [])
        (fun d => if d = "tank/c".data then ["tank/c@zfs-pbs-backup_1699000000".data]
          else []) :=
  (find_orphan_flags_iff [⟨"tank/c".data, "/mnt/c".data, "true", false, true⟩]
      "zfs-pbs-backup_".data "1700000000".data (fun _ => [])
      (fun d => if d = "tank/c".data then ["tank/c@zfs-pbs-backup_1699000000".data]
        else [])
      (by decide)
      (by
        intro plan hplan
        simp only [List.mem_singleton] at hplan
        subst hplan
        refine ⟨by decide, ?_⟩
        intro s hs
        simp at hs
        subst hs
        exact ⟨"zfs-pbs-backup_1699000000".data, by decide⟩)
      "tank/c".data "zfs-pbs-backup_1699000000".data).mpr
    ⟨⟨"tank/c".data, "/mnt/c".data, "true", false, true⟩, by decide, by decide, by decide,
      by decide, by decide⟩

-- =============================================================================
-- C6: resume timestamp selection
-- =============================================================================

theorem resumeStep_eq (pfx : Name) (props : Name → Name) (tn : Option Name)
    (snapshot : Name) :
    resumeStep pfx props tn snapshot =
      match resumeCandidate pfx props snapshot with
      | none => tn
      | some c => updIfNewer tn c := by
  by_cases h1 : pyIsDigit (pyStrip (props snapshot)) <;>
    by_cases h2 : pyStartsWith (pySplitOnce '@' snapshot).2 pfx <;>
      by_cases h3 : pyIsDigit ((pySplitOnce '@' snapshot).2.drop pfx.length) <;>
        simp [resumeStep, resumeCandidate, h1, h2, h3]

theorem foldl_resumeStep (pfx : Name) (props : Name → Name) :
    ∀ (snaps : List Name) (tn : Option Name),
      snaps.foldl (resumeStep pfx props) tn =
        (snaps.filterMap (resumeCandidate pfx props)).foldl updIfNewer tn := by
  intro snaps
  induction snaps with
  | nil => intro tn; rfl
  | cons s rest ih =>
    intro tn
    rw [List.foldl_cons, resumeStep_eq]
    cases hc : resumeCandidate pfx props s <;>
      simp [List.filterMap_cons, hc, ih]

theorem find_resume_eq_fold (dataset_plans : List DatasetPlan) (pfx : Name)
    (props : Name → Name) (listing : Name → List Name) :
    find_resume_timestamp dataset_plans pfx props listing =
      (resumeCandidates dataset_plans pfx props listing).foldl updIfNewer none := by
  rw [find_resume_timestamp, resumeCandidates]
  generalize (none : Option Name) = tn
  induction dataset_plans generalizing tn with
  | nil => rfl
  | cons p rest ih =>
    rw [List.foldl_cons, List.flatMap_cons, List.foldl_append, foldl_resumeStep]
    exact ih _

theorem updIfNewer_ne_none (tn : Option Name) (c : Name) : updIfNewer tn c ≠ none := by
  cases tn <;> simp [updIfNewer] <;> split <;> simp

theorem foldl_updIfNewer_none_iff :
    ∀ (cands : List Name) (tn : Option Name),
      (cands.foldl updIfNewer tn = none ↔ tn = none ∧ cands = []) := by
  intro cands
  induction cands with
  | nil => intro tn; simp
  | cons c rest ih =>
    intro tn
    rw [List.foldl_cons, ih]
    simp [updIfNewer_ne_none tn c]

theorem foldl_updIfNewer_mem :
    ∀ (cands : List Name) (tn : Option Name) (t : Name),
      cands.foldl updIfNewer tn = some t → tn = some t ∨ t ∈ cands := by
  intro cands
  induction cands with
  | nil => intro tn t h; exact Or.inl h
  | cons c rest ih =>
    intro tn t h
    rw [List.foldl_cons] at h
    rcases ih _ t h with hup | hmem
    · cases tn with
      | none =>
        simp [updIfNewer] at hup
        exact Or.inr (by simp [hup])
      | some t0 =>
        by_cases hgt : pyInt c > pyInt t0
        · simp [updIfNewer, hgt] at hup
          exact Or.inr (by simp [hup])
        · simp [updIfNewer, hgt] at hup
          exact Or.inl (by simp [hup])
    · exact Or.inr (List.mem_cons_of_mem _ hmem)

theorem foldl_updIfNewer_ge :
    ∀ (cands : List Name) (tn : Option Name) (t : Name),
      cands.foldl updIfNewer tn = some t →
        (∀ c ∈ cands, pyInt c ≤ pyInt t) ∧
          (∀ t0, tn = some t0 → pyInt t0 ≤ pyInt t) := by
  intro cands
  induction cands with
  | nil =>
    intro tn t h
    refine ⟨by simp, fun t0 ht0 => ?_⟩
    rw [ht0] at h
    cases h
    exact Nat.le_refl _
  | cons c rest ih =>
    intro tn t h
    rw [List.foldl_cons] at h
    have hrec := ih _ t h
    have hc : pyInt c ≤ pyInt t := by
      cases tn with
      | none => exact hrec.2 c (by simp [updIfNewer])
      | some t0 =>
        by_cases hgt : pyInt c > pyInt t0
        · exact hrec.2 c (by simp [updIfNewer, hgt])
        · have := hrec.2 t0 (by simp [updIfNewer, hgt])
          omega
    refine ⟨fun x hx => ?_, fun t0 ht0 => ?_⟩
    · rcases List.mem_cons.mp hx with rfl | hx'
      · exact hc
      · exact hrec.1 x hx'
    · subst ht0
      by_cases hgt : pyInt c > pyInt t0
      · have := hrec.2 c (by simp [updIfNewer, hgt])
        omega
      · exact hrec.2 t0 (by simp [updIfNewer, hgt])

/-- C6: `find_resume_timestamp` returns the maximum effective timestamp across all
    plans and all of their matching snapshots — preferring the stored timestamp
    property when it is a decimal string and falling back to the decimal name suffix —
    and returns None exactly when no snapshot yields a timestamp. -/
theorem find_resume_timestamp_max (dataset_plans : List DatasetPlan) (pfx : Name)
    (props : Name → Name) (listing : Name → List Name) :
    (find_resume_timestamp dataset_plans pfx props listing = none ↔
      resumeCandidates dataset_plans pfx props listing = []) ∧
    (∀ t, find_resume_timestamp dataset_plans pfx props listing = some t →
      t ∈ resumeCandidates dataset_plans pfx props listing ∧
        ∀ c ∈ resumeCandidates dataset_plans pfx props listing, pyInt c ≤ pyInt t) := by
  rw [find_resume_eq_fold]
  constructor
  · rw [foldl_updIfNewer_none_iff]
    simp
  · intro t ht
    refine ⟨?_, (foldl_updIfNewer_ge _ _ _ ht).1⟩
    rcases foldl_updIfNewer_mem _ _ _ ht with hcontra | hmem
    · cases hcontra
    · exact hmem

/-- C6 (witness): the spec's resume scenario — snapshots with effective timestamps
    1700000000 (suffix only), 1700000500 (property) and 1700000200 — yields
    "1700000500". -/
theorem find_resume_timestamp_max_witness :
    find_resume_timestamp
        [⟨"tank/a".data, "/mnt/a".data, "true", false, true⟩,
         ⟨"tank/b".data, "/mnt/b".data, "true", false, true⟩]
        "zfs-pbs-backup_".data
        (fun s => if s = "tank/a@zfs-pbs-backup_1700000500".data then "1700000500".data
          else if s = "tank/b@zfs-pbs-backup_1700000200".data then "1700000200".data
          else [])
        (fun d => if d = "tank/a".data then
            ["tank/a@zfs-pbs-backup_1700000000".data, "tank/a@zfs-pbs-backup_1700000500".data]
          else if d = "tank/b".data then ["tank/b@zfs-pbs-backup_1700000200".data]
          else []) = some "1700000500".data ∧
    ∀ c ∈ resumeCandidates
        [⟨"tank/a".data, "/mnt/a".data, "true", false, true⟩,
         ⟨"tank/b".data, "/mnt/b".data, "true", false, true⟩]
        "zfs-pbs-backup_".data
        (fun s => if s = "tank/a@zfs-pbs-backup_1700000500".data then "1700000500".data
          else if s = "tank/b@zfs-pbs-backup_1700000200".data then "1700000200".data
          else [])
        (fun d => if d = "tank/a".data then
            ["tank/a@zfs-pbs-backup_1700000000".data, "tank/a@zfs-pbs-backup_1700000500".data]
          else if d = "tank/b".data then ["tank/b@zfs-pbs-backup_1700000200".data]
          else []), pyInt c ≤ pyInt "1700000500".data := by
  refine ⟨by decide, ?_⟩
  exact ((find_resume_timestamp_max _ _ _ _).2 "1700000500".data (by decide)).2

-- =============================================================================
-- C1 / C5: recursive-root minimization
-- =============================================================================

theorem pref_cons {a : Char} {l₁ l₂ : Name} (h : l₁ <+: l₂) : (a :: l₁) <+: (a :: l₂) := by
  obtain ⟨w, hw⟩ := h
  exact ⟨w, by simp [hw]⟩

theorem pref_comparable : ∀ (t p₁ p₂ : Name), p₁ <+: t → p₂ <+: t →
    p₁ <+: p₂ ∨ p₂ <+: p₁ := by
  intro t
  induction t with
  | nil =>
    intro p₁ p₂ h1 h2
    obtain ⟨w1, hw1⟩ := h1
    have : p₁ = [] := by
      cases p₁ with
      | nil => rfl
      | cons a t' => simp at hw1
    subst this
    exact Or.inl ⟨p₂, rfl⟩
  | cons c rest ih =>
    intro p₁ p₂ h1 h2
    cases p₁ with
    | nil => exact Or.inl ⟨p₂, rfl⟩
    | cons a t₁ =>
      cases p₂ with
      | nil => exact Or.inr ⟨a :: t₁, rfl⟩
      | cons b t₂ =>
        obtain ⟨w1, hw1⟩ := h1
        obtain ⟨w2, hw2⟩ := h2
        injection hw1 with ha htail1
        injection hw2 with hb htail2
        subst ha
        subst hb
        rcases ih t₁ t₂ ⟨w1, htail1⟩ ⟨w2, htail2⟩ with h | h
        · exact Or.inl (pref_cons h)
        · exact Or.inr (pref_cons h)

theorem pref_length_le {p q : Name} (h : p <+: q) : p.length ≤ q.length := by
  obtain ⟨w, hw⟩ := h
  have := congrArg List.length hw
  simp at this
  omega

theorem pref_antisym_len {p q : Name} (h : p <+: q) (hl : q.length ≤ p.length) :
    p = q := by
  obtain ⟨w, hw⟩ := h
  have hlen := congrArg List.length hw
  simp at hlen
  have hw0 : w = [] := List.length_eq_zero.mp (by omega)
  subst hw0
  simpa using hw

theorem lt_of_pref_ne : ∀ {p q : Name}, p <+: q → p ≠ q → p < q := by
  intro p
  induction p with
  | nil =>
    intro q h hne
    cases q with
    | nil => exact absurd rfl hne
    | cons b t => exact List.Lex.nil
  | cons a t ih =>
    intro q h hne
    cases q with
    | nil =>
      obtain ⟨w, hw⟩ := h
      simp at hw
    | cons b t₂ =>
      obtain ⟨w, hw⟩ := h
      injection hw with h1 h2
      subst h1
      exact List.Lex.cons (ih ⟨w, h2⟩ (fun hh => hne (by rw [hh])))

theorem lt_of_sep_pref {r d : Name} (h : (r ++ ['/']) <+: d) : r < d := by
  have h1 : r <+: d := List.IsPrefix.trans ⟨['/'], rfl⟩ h
  have hne : r ≠ d := by
    intro heq
    subst heq
    have := pref_length_le h
    simp at this
  exact lt_of_pref_ne h1 hne

theorem covers_comparable {r₁ r₂ d : Name} (h1 : covers r₁ d) (h2 : covers r₂ d)
    (hne : r₁ ≠ r₂) : (r₁ ++ ['/']) <+: r₂ ∨ (r₂ ++ ['/']) <+: r₁ := by
  have key : ∀ a b : Name, (a ++ ['/']) <+: (b ++ ['/']) → a ≠ b → (a ++ ['/']) <+: b := by
    intro a b h hab
    have hlen : a.length ≤ b.length := by
      have := pref_length_le h
      simp at this
      omega
    have hlt : a.length < b.length := by
      rcases Nat.lt_or_ge a.length b.length with hh | hh
      · exact hh
      · exact absurd (congrArg (fun l => l.take a.length)
          (pref_antisym_len h (by simp; omega))).symm
          (by
            intro heq
            apply hab
            have h1a : (a ++ ['/']).take a.length = a := by
              simp [List.take_append_eq_append_take]
            have h1b : (b ++ ['/']).take a.length = b := by
              have hab2 : a.length = b.length := by omega
              simp [List.take_append_eq_append_take, hab2]
            rw [h1a, h1b] at heq
            exact heq.symm)
    have hb : b <+: b ++ ['/'] := ⟨['/'], rfl⟩
    rcases pref_comparable (b ++ ['/']) _ _ h hb with hh | hh
    · exact hh
    · have : b = a ++ ['/'] := pref_antisym_len hh (by simp; omega)
      exact this ▸ ⟨[], by simp⟩
  rcases h1 with rfl | h1
  · rcases h2 with h2 | h2
    · exact absurd h2 hne
    · exact Or.inr h2
  · rcases h2 with rfl | h2
    · exact Or.inl h1
    · rcases pref_comparable d _ _ h1 h2 with h | h
      · exact Or.inl (key _ _ h hne)
      · exact Or.inr (key _ _ h (Ne.symm hne))

theorem minStep_pos {acc : List Name} {d : Name}
    (h : acc.any (fun parent => pyStartsWith d (parent ++ ['/'])) = true) :
    minStep acc d = acc := by
  unfold minStep
  rw [if_pos h]

theorem minStep_neg {acc : List Name} {d : Name}
    (h : ¬acc.any (fun parent => pyStartsWith d (parent ++ ['/'])) = true) :
    minStep acc d = acc ++ [d] := by
  unfold minStep
  rw [if_neg h]

theorem foldl_minStep_sublist : ∀ (s acc : List Name),
    ∃ t, t.Sublist s ∧ List.foldl minStep acc s = acc ++ t := by
  intro s
  induction s with
  | nil => intro acc; exact ⟨[], List.Sublist.refl _, by simp⟩
  | cons d rest ih =>
    intro acc
    rw [List.foldl_cons]
    by_cases h : acc.any (fun parent => pyStartsWith d (parent ++ ['/'])) = true
    · rw [minStep_pos h]
      obtain ⟨t, hts, hfold⟩ := ih acc
      exact ⟨t, hts.cons _, hfold⟩
    · rw [minStep_neg h]
      obtain ⟨t, hts, hfold⟩ := ih (acc ++ [d])
      exact ⟨d :: t, hts.cons₂ _, by rw [hfold, List.append_assoc]; rfl⟩

theorem foldl_minStep_covers : ∀ (s acc : List Name) (d : Name), d ∈ s →
    ∃ r ∈ List.foldl minStep acc s, covers r d := by
  intro s
  induction s with
  | nil => intro acc d hd; cases hd
  | cons x rest ih =>
    intro acc d hd
    rw [List.foldl_cons]
    rcases List.mem_cons.mp hd with rfl | hd'
    · by_cases h : acc.any (fun parent => pyStartsWith d (parent ++ ['/'])) = true
      · rw [minStep_pos h]
        obtain ⟨p, hp, hps⟩ := List.any_eq_true.mp h
        obtain ⟨t, _, hf⟩ := foldl_minStep_sublist rest acc
        refine ⟨p, ?_, Or.inr ?_⟩
        · rw [hf]; exact List.mem_append_left _ hp
        · simpa [pyStartsWith] using hps
      · rw [minStep_neg h]
        obtain ⟨t, _, hf⟩ := foldl_minStep_sublist rest (acc ++ [d])
        refine ⟨d, ?_, Or.inl rfl⟩
        rw [hf]
        exact List.mem_append_left _ (List.mem_append_right _ (by simp))
    · by_cases h : acc.any (fun parent => pyStartsWith x (parent ++ ['/'])) = true
      · rw [minStep_pos h]; exact ih acc d hd'
      · rw [minStep_neg h]; exact ih (acc ++ [x]) d hd'

theorem foldl_minStep_pairwise : ∀ (s acc : List Name),
    acc.Pairwise (fun a b => ¬((a ++ ['/']) <+: b)) →
    (List.foldl minStep acc s).Pairwise (fun a b => ¬((a ++ ['/']) <+: b)) := by
  intro s
  induction s with
  | nil => intro acc h; exact h
  | cons x rest ih =>
    intro acc hacc
    rw [List.foldl_cons]
    by_cases h : acc.any (fun parent => pyStartsWith x (parent ++ ['/'])) = true
    · rw [minStep_pos h]; exact ih acc hacc
    · rw [minStep_neg h]
      apply ih
      rw [List.pairwise_append]
      refine ⟨hacc, by simp, ?_⟩
      intro a ha b hb
      simp only [List.mem_singleton] at hb
      subst hb
      have hnp : ¬(pyStartsWith b (a ++ ['/']) = true) :=
        fun hp => h (List.any_eq_true.mpr ⟨a, ha, hp⟩)
      simpa [pyStartsWith] using hnp

theorem foldl_minStep_all : ∀ (s : List Name),
    s.Pairwise (fun a b => ¬((a ++ ['/']) <+: b)) →
    ∀ acc, (∀ a ∈ acc, ∀ x ∈ s, ¬((a ++ ['/']) <+: x)) →
      List.foldl minStep acc s = acc ++ s := by
  intro s
  induction s with
  | nil => intro _ acc _; simp
  | cons x rest ih =>
    intro hpw acc hacc
    rw [List.foldl_cons]
    have hguard : acc.any (fun parent => pyStartsWith x (parent ++ ['/'])) = false := by
      rw [List.any_eq_false]
      intro a ha
      simp only [pyStartsWith, decide_eq_true_eq]
      exact hacc a ha x (List.mem_cons_self _ _)
    rw [minStep_neg (by simp [hguard])]
    have hpw' := List.pairwise_cons.mp hpw
    rw [ih hpw'.2 (acc ++ [x]) ?side]
    · simp
    case side =>
      intro a ha y hy
      rcases List.mem_append.mp ha with ha' | ha''
      · exact hacc a ha' y (List.mem_cons_of_mem _ hy)
      · simp only [List.mem_singleton] at ha''
        subst ha''
        exact hpw'.1 y hy

theorem minimize_sorted (l : List Name) :
    (_minimize_recursive_roots l).Sorted (· < ·) := by
  obtain ⟨t, hts, hf⟩ := foldl_minStep_sublist (List.insertionSort (· ≤ ·) l.dedup) []
  have hsorted : (List.insertionSort (· ≤ ·) l.dedup).Sorted (· ≤ ·) :=
    List.sorted_insertionSort _ _
  have hnodup : (List.insertionSort (· ≤ ·) l.dedup).Nodup :=
    (List.perm_insertionSort (· ≤ ·) l.dedup).symm.nodup (List.nodup_dedup l)
  have hlt := hsorted.lt_of_le hnodup
  show List.Sorted (· < ·) (List.foldl minStep [] (List.insertionSort (· ≤ ·) l.dedup))
  rw [hf]
  simpa using List.Pairwise.sublist hts hlt

theorem minimize_nodup (l : List Name) : (_minimize_recursive_roots l).Nodup :=
  (minimize_sorted l).imp (fun h => ne_of_lt h)

theorem minimize_noncover (l : List Name) :
    (_minimize_recursive_roots l).Pairwise (fun a b => ¬((a ++ ['/']) <+: b)) :=
  foldl_minStep_pairwise _ [] List.Pairwise.nil

theorem minimize_covers_all (l : List Name) : ∀ d ∈ l,
    ∃ r ∈ _minimize_recursive_roots l, covers r d := by
  intro d hd
  apply foldl_minStep_covers
  rw [(List.perm_insertionSort (· ≤ ·) l.dedup).mem_iff]
  exact List.mem_dedup.mpr hd

theorem minimize_unique_cover (l : List Name) {r₁ r₂ d : Name}
    (h₁ : r₁ ∈ _minimize_recursive_roots l) (h₂ : r₂ ∈ _minimize_recursive_roots l)
    (hc₁ : covers r₁ d) (hc₂ : covers r₂ d) : r₁ = r₂ := by
  by_contra hne
  have hQ : (_minimize_recursive_roots l).Pairwise
      (fun a b => ¬((a ++ ['/']) <+: b) ∧ a < b) :=
    (minimize_noncover l).and (minimize_sorted l)
  have hR : (_minimize_recursive_roots l).Pairwise
      (fun a b => (¬((a ++ ['/']) <+: b) ∧ a < b) ∨ (¬((b ++ ['/']) <+: a) ∧ b < a)) :=
    hQ.imp (fun h => Or.inl h)
  have hsym : Symmetric (fun a b : Name =>
      (¬((a ++ ['/']) <+: b) ∧ a < b) ∨ (¬((b ++ ['/']) <+: a) ∧ b < a)) := by
    intro a b h
    tauto
  have hab := hR.forall hsym h₁ h₂ hne
  rcases covers_comparable hc₁ hc₂ hne with hcov | hcov
  · rcases hab with ⟨hnc, _⟩ | ⟨_, hlt⟩
    · exact hnc hcov
    · exact absurd (lt_of_sep_pref hcov) (lt_asymm hlt)
  · rcases hab with ⟨_, hlt⟩ | ⟨hnc, _⟩
    · exact absurd (lt_of_sep_pref hcov) (lt_asymm hlt)
    · exact hnc hcov

theorem countP_eq_one_unique {l : List Name} {p : Name → Bool} (hnd : l.Nodup)
    {a : Name} (ha : a ∈ l) (hpa : p a = true)
    (huniq : ∀ b ∈ l, p b = true → b = a) : l.countP p = 1 := by
  induction l with
  | nil => cases ha
  | cons x rest ih =>
    have hnd' := List.nodup_cons.mp hnd
    rcases List.mem_cons.mp ha with rfl | hmem
    · rw [List.countP_cons_of_pos _ _ hpa]
      have h0 : rest.countP p = 0 := by
        rw [List.countP_eq_zero]
        intro b hb hpb
        have hba := huniq b (List.mem_cons_of_mem _ hb) hpb
        exact hnd'.1 (hba ▸ hb)
      rw [h0]
    · have hx : ¬p x = true := by
        intro hpx
        have hxa := huniq x (List.mem_cons_self _ _) hpx
        exact hnd'.1 (hxa ▸ hmem)
      rw [List.countP_cons_of_neg _ _ hx]
      exact ih hnd'.2 hmem (fun b hb hpb => huniq b (List.mem_cons_of_mem _ hb) hpb)

theorem count_eq_one_of_mem_nodup : ∀ {l : List Name} {a : Name},
    l.Nodup → a ∈ l → l.count a = 1 := by
  intro l
  induction l with
  | nil => intro a _ ha; cases ha
  | cons x rest ih =>
    intro a hnd ha
    have hnd' := List.nodup_cons.mp hnd
    rcases List.mem_cons.mp ha with rfl | hmem
    · rw [List.count_cons_self]
      have h0 : rest.count a = 0 := by
        rw [List.count_eq_zero]
        exact hnd'.1
      rw [h0]
    · rw [List.count_cons_of_ne (fun h : a = x => hnd'.1 (h ▸ hmem))]
      exact ih hnd'.2 hmem

/-- C1: for every list of dataset plans, every dataset targeted for snapshot creation
    is snapshotted exactly once per run — it is covered by exactly one minimized
    recursive root (and then excluded from the non-recursive `zfs snapshot`
    invocation), or it is covered by none and listed exactly once in the single
    non-recursive invocation. -/
theorem snapshot_targets_exactly_once (dataset_plans : List DatasetPlan) (d : Name)
    (hd : d ∈ dataset_plans.map (·.dataset)) :
    (recursiveRoots dataset_plans).countP (fun r => decide (covers r d)) +
      (nonRecursiveSnapshotArgs dataset_plans).count d = 1 := by
  by_cases hcov : ∃ r ∈ recursiveRoots dataset_plans, covers r d
  · obtain ⟨r, hr, hcr⟩ := hcov
    have hcount : (recursiveRoots dataset_plans).countP
        (fun r => decide (covers r d)) = 1 := by
      apply countP_eq_one_unique (minimize_nodup _) hr (by simpa using hcr)
      intro b hb hpb
      exact minimize_unique_cover _ hb hr (of_decide_eq_true hpb) hcr
    have hnot : d ∉ nonRecursiveSnapshotArgs dataset_plans := by
      intro hmem
      rw [nonRecursiveSnapshotArgs, List.mem_dedup, non_recursive_targets,
        List.mem_filter] at hmem
      have h2 := hmem.2
      have hcovered : covered_by_recursive (recursiveRoots dataset_plans) d = true := by
        rw [covered_by_recursive, List.any_eq_true]
        refine ⟨r, hr, ?_⟩
        rcases hcr with heq | hpref
        · simp [pyStartsWith, heq]
        · simp [pyStartsWith, hpref]
      simp [hcovered] at h2
    rw [hcount, List.count_eq_zero.mpr hnot]
  · have hcount0 : (recursiveRoots dataset_plans).countP
        (fun r => decide (covers r d)) = 0 := by
      rw [List.countP_eq_zero]
      intro b hb hdec
      exact hcov ⟨b, hb, of_decide_eq_true hdec⟩
    obtain ⟨p, hp, hpd⟩ := List.mem_map.mp hd
    have hnrec : p.recursive_for_snapshot = false := by
      by_contra hrec
      rw [Bool.not_eq_false] at hrec
      have hmem : d ∈ (dataset_plans.filter (·.recursive_for_snapshot)).map
          (·.dataset) := by
        rw [List.mem_map]
        exact ⟨p, List.mem_filter.mpr ⟨hp, hrec⟩, hpd⟩
      obtain ⟨r, hr, hcr⟩ := minimize_covers_all _ d hmem
      exact hcov ⟨r, hr, hcr⟩
    have hmem2 : d ∈ nonRecursiveSnapshotArgs dataset_plans := by
      rw [nonRecursiveSnapshotArgs, List.mem_dedup, non_recursive_targets,
        List.mem_filter]
      constructor
      · rw [List.mem_map]
        exact ⟨p, List.mem_filter.mpr ⟨hp, by simp [hnrec]⟩, hpd⟩
      · simp only [Bool.not_eq_true']
        rw [covered_by_recursive, List.any_eq_false]
        intro r hr hor
        simp only [pyStartsWith, Bool.or_eq_true, decide_eq_true_eq] at hor
        rcases hor with hpref | heq
        · exact hcov ⟨r, hr, Or.inr hpref⟩
        · exact hcov ⟨r, hr, Or.inl heq⟩
    have hnd : (nonRecursiveSnapshotArgs dataset_plans).Nodup := by
      rw [nonRecursiveSnapshotArgs]
      exact List.nodup_dedup _
    rw [hcount0, count_eq_one_of_mem_nodup hnd hmem2]

/-- C1 (witness): the spec's three-dataset scenario — `tank` recursive, `tank/a` true,
    `tank/b` children, `tank/b/x` true — where `tank/a` is covered exactly once (by
    the minimized root `tank`) across all snapshot invocations. -/
theorem snapshot_targets_exactly_once_witness :
    (recursiveRoots
        [⟨"tank".data, "/tank".data, "recursive", true, true⟩,
         ⟨"tank/a".data, "/tank/a".data, "true", false, true⟩,
         ⟨"tank/b".data, "/tank/b".data, "children", true, false⟩,
         ⟨"tank/b/x".data, "/tank/b/x".data, "true", false, true⟩]).countP
      (fun r => decide (covers r "tank/a".data)) +
      (nonRecursiveSnapshotArgs
        [⟨"tank".data, "/tank".data, "recursive", true, true⟩,
         ⟨"tank/a".data, "/tank/a".data, "true", false, true⟩,
         ⟨"tank/b".data, "/tank/b".data, "children", true, false⟩,
         ⟨"tank/b/x".data, "/tank/b/x".data, "true", false, true⟩]).count
        "tank/a".data = 1 :=
  snapshot_targets_exactly_once
    [⟨"tank".data, "/tank".data, "recursive", true, true⟩,
     ⟨"tank/a".data, "/tank/a".data, "true", false, true⟩,
     ⟨"tank/b".data, "/tank/b".data, "children", true, false⟩,
     ⟨"tank/b/x".data, "/tank/b/x".data, "true", false, true⟩]
    "tank/a".data (by decide)

/-- C5: the recursive-root minimization is idempotent and invariant under any
    permutation of its input list. -/
theorem minimize_idempotent_perm_invariant :
    (∀ S : List Name, _minimize_recursive_roots (_minimize_recursive_roots S) =
        _minimize_recursive_roots S) ∧
    (∀ S S' : List Name, S.Perm S' →
        _minimize_recursive_roots S = _minimize_recursive_roots S') := by
  constructor
  · intro S
    have hnodup := minimize_nodup S
    have hsortle : (_minimize_recursive_roots S).Sorted (· ≤ ·) :=
      (minimize_sorted S).imp (fun h => le_of_lt h)
    show List.foldl minStep [] (List.insertionSort (· ≤ ·)
        (_minimize_recursive_roots S).dedup) = _minimize_recursive_roots S
    rw [List.Nodup.dedup hnodup, hsortle.insertionSort_eq]
    have hall := foldl_minStep_all (_minimize_recursive_roots S) (minimize_noncover S)
      [] (by simp)
    simpa using hall
  · intro S S' hperm
    show List.foldl minStep [] _ = List.foldl minStep [] _
    congr 1
    exact List.eq_of_perm_of_sorted
      ((List.perm_insertionSort _ _).trans ((hperm.dedup).trans
        (List.perm_insertionSort _ _).symm))
      (List.sorted_insertionSort _ _) (List.sorted_insertionSort _ _)

/-- C5 (witness): minimization applied at concrete inputs — idempotence on
    ["tank", "tank/a"] and invariance under swapping that list. -/
theorem minimize_idempotent_perm_invariant_witness :
    _minimize_recursive_roots (_minimize_recursive_roots
        ["tank".data, "tank/a".data]) =
      _minimize_recursive_roots ["tank".data, "tank/a".data] ∧
    _minimize_recursive_roots ["tank/a".data, "tank".data] =
      _minimize_recursive_roots ["tank".data, "tank/a".data] :=
  ⟨minimize_idempotent_perm_invariant.1 ["tank".data, "tank/a".data],
   minimize_idempotent_perm_invariant.2 ["tank/a".data, "tank".data]
     ["tank".data, "tank/a".data] (by decide)⟩
